import Mathlib

/-!
Verification of the quads routing-rule store (`database.js`).

The development shallowly embeds the `RoutingDatabase` class: the SQLite
table `routing_rules` is modelled as a `List Rule` in insertion (rowid)
order, timestamps are `Int` seconds, and each method becomes a pure
function.  Nullable TEXT columns become `Option String`; the
`query_params` column (a JSON array or NULL) becomes `Option (List String)`.
JavaScript string truthiness (null / undefined / empty string are falsy)
is captured by `strFalsy`.
-/

/-- Row of the `routing_rules` table (schema at database.js lines 12-24). -/
structure Rule where
  rule_id : String
  domain : String
  subdomain : Option String
  path : Option String
  query_params : Option (List String)
  downstream_url : String
  expires_at : Int
  created_at : Int
  updated_at : Int
deriving Repr, DecidableEq

/-- Error taxonomy of the store (the `throw new Error(...)` sites). -/
inductive DbError where
  | invalidInput
  | duplicate
  | notFound
  | noFields
deriving Repr, DecidableEq

/-- JavaScript falsiness of a nullable string: `null`, `undefined` and the
empty string are falsy (the `!subdomain` / `!path` tests in the source). -/
def strFalsy : Option String → Bool
  | Option.none => true
  | some s => s == ""

/-- Embeds the JavaScript test `path.startsWith('/')` for the one-character
prefix used by `generateRuleId`: true iff the first character is a slash. -/
def startsWithSlash (v : String) : Bool :=
  match v.data with
  | [] => false
  | c :: _ => c == '/'

/-- Embeds `paramsArray.join(',')` from database.js line 74. -/
def joinComma : List String → String
  | [] => ""
  | [k] => k
  | k :: ks => k ++ "," ++ joinComma ks

/-- Subdomain-and-domain segment of a rule id (database.js lines 46-51). -/
def subPart (subdomain : Option String) (domain : String) : String :=
  match subdomain with
  | Option.none => "!." ++ domain
  | some s => if s = "" then "!." ++ domain else s ++ "." ++ domain

/-- Path segment of a rule id (database.js lines 53-65). -/
def pathPart (path : Option String) : String :=
  match path with
  | Option.none => "/!"
  | some p =>
    if p = "" then "/!"
    else if p = "*" then "/*"
    else if startsWithSlash p then p
    else "/" ++ p

/-- Query-parameter segment of a rule id (database.js lines 67-78):
`null` contributes nothing, `[]` contributes `/[]`, a non-empty array
contributes `/[k1,...,kn]`. -/
def queryPart (queryParams : Option (List String)) : String :=
  match queryParams with
  | Option.none => ""
  | some ps => if ps = [] then "/[]" else "/[" ++ joinComma ps ++ "]"

/-- Embeds `generateRuleId` (database.js lines 43-81).  The source builds
the id by successive string appends; the three segments are factored out
here, concatenated in the same order. -/
def generateRuleId (domain : String) (subdomain : Option String)
    (path : Option String) (queryParams : Option (List String)) : String :=
  subPart subdomain domain ++ pathPart path ++ queryPart queryParams

/-- Row inserted by `createRule` (`created_at` / `updated_at` are set to
the current time, as the column defaults of the schema do). -/
def createRuleRecord (domain : String) (subdomain : Option String) (path : Option String)
    (queryParams : Option (List String)) (downstreamUrl : String)
    (expiresAt : Int) (now : Int) : Rule :=
  { rule_id := generateRuleId domain subdomain path queryParams, domain := domain,
    subdomain := subdomain, path := path, query_params := queryParams,
    downstream_url := downstreamUrl, expires_at := expiresAt,
    created_at := now, updated_at := now }

/-- Embeds `createRule` (database.js lines 83-107).  `!domain` is true in
JavaScript exactly for the empty string once `domain` is a string; the
`SQLITE_CONSTRAINT` raised by the `rule_id` primary key on a duplicate
insert becomes the membership test.  On success the inserted row and the
extended table are returned; on error the table is unchanged. -/
def createRule (store : List Rule) (domain : String) (subdomain : Option String)
    (path : Option String) (queryParams : Option (List String))
    (downstreamUrl : String) (expiresAt : Int) (now : Int) :
    Except DbError (Rule × List Rule) :=
  if domain = "" then Except.error DbError.invalidInput
  else if store.any (fun r => r.rule_id == generateRuleId domain subdomain path queryParams) then
    Except.error DbError.duplicate
  else
    Except.ok (createRuleRecord domain subdomain path queryParams downstreamUrl expiresAt now,
      store ++ [createRuleRecord domain subdomain path queryParams downstreamUrl expiresAt now])

/-- Insertion step for `ORDER BY created_at DESC` (stable: an equal key
keeps the earlier row first). -/
def insertDesc (r : Rule) : List Rule → List Rule
  | [] => [r]
  | x :: xs => if r.created_at ≤ x.created_at then x :: insertDesc r xs else r :: x :: xs

/-- Sorts rows by `created_at` descending (the `ORDER BY` of
`getAllRules` / `getActiveRules`). -/
def sortByCreatedDesc : List Rule → List Rule
  | [] => []
  | x :: xs => insertDesc x (sortByCreatedDesc xs)

/-- Embeds `getAllRules` (database.js lines 118-127): every row, ordered
by creation time descending, with no expiry restriction. -/
def getAllRules (store : List Rule) : List Rule :=
  sortByCreatedDesc store

/-- Embeds `getActiveRules` (database.js lines 129-139): rows with
`expires_at > now`, ordered by creation time descending. -/
def getActiveRules (store : List Rule) (now : Int) : List Rule :=
  sortByCreatedDesc (store.filter (fun r => decide (now < r.expires_at)))

/-- Embeds `updateRule` (database.js lines 141-172).  The dynamic
`updates` map filtered through `allowedFields = ['downstream_url',
'expires_at']` is modelled as two optional fields; keys outside the
whitelist never reach the SET clause.  An empty effective patch raises
`No valid fields to update`; `result.changes === 0` (no row with that id)
raises `Rule not found`; otherwise the matching row gets the new values
and a fresh `updated_at`. -/
def updateRule (store : List Rule) (ruleId : String)
    (newUrl : Option String) (newExpiresAt : Option Int) (now : Int) :
    Except DbError (List Rule) :=
  if newUrl = Option.none ∧ newExpiresAt = Option.none then Except.error DbError.noFields
  else if store.any (fun r => r.rule_id == ruleId) then
    Except.ok (store.map (fun r =>
      if r.rule_id = ruleId then
        { r with downstream_url := newUrl.getD r.downstream_url,
                 expires_at := newExpiresAt.getD r.expires_at,
                 updated_at := now }
      else r))
  else Except.error DbError.notFound

/-- Embeds `deleteRule` (database.js lines 174-178): removes the rows
with the given id and reports whether any row was removed. -/
def deleteRule (store : List Rule) (ruleId : String) : Bool × List Rule :=
  (store.any (fun r => r.rule_id == ruleId),
   store.filter (fun r => !(r.rule_id == ruleId)))

/-- Embeds `pruneExpiredRules` (database.js lines 180-185): deletes every
row with `expires_at <= now` and returns the number of deleted rows
(`result.changes`) together with the remaining table. -/
def pruneExpiredRules (store : List Rule) (now : Int) : Nat × List Rule :=
  (store.countP (fun r => decide (r.expires_at ≤ now)),
   store.filter (fun r => !(decide (r.expires_at ≤ now))))

/-- Subdomain check of `findMatchingRule` (database.js lines 200-212):
`some n` is the accumulated score contribution, `none` is the `continue`.
A stored `'*'` scores 1; a stored `'!'` or falsy subdomain requires the
request subdomain to be falsy and scores 10; any other stored value must
equal the request subdomain exactly (JavaScript `===`) and scores 10. -/
def subScore (ruleSub reqSub : Option String) : Option Nat :=
  if ruleSub = some "*" then some 1
  else if ruleSub = some "!" ∨ strFalsy ruleSub then
    if strFalsy reqSub then some 10 else Option.none
  else if ruleSub = reqSub then some 10
  else Option.none

/-- Request-path test of database.js line 220: the guard
`path && path !== '/' && path !== '!'` that rejects a no-path rule. -/
def pathBlocks : Option String → Bool
  | Option.none => false
  | some p => !(p == "") && !(p == "/") && !(p == "!")

/-- Path check of `findMatchingRule` (database.js lines 214-226), with the
same shape as `subScore`; a stored `'!'` or falsy path accepts a request
path that is absent, empty, `'/'` or `'!'`. -/
def pathScore (rulePath reqPath : Option String) : Option Nat :=
  if rulePath = some "*" then some 1
  else if rulePath = some "!" ∨ strFalsy rulePath then
    if pathBlocks reqPath then Option.none else some 10
  else if rulePath = reqPath then some 10
  else Option.none

/-- Query-parameter check of `findMatchingRule` (database.js lines
228-251): a NULL column scores 5 unconditionally; an empty allow-list
requires the request to carry no query keys and scores 10; a non-empty
allow-list requires every request key to be allowed and scores 10. -/
def queryScore (ruleQP : Option (List String)) (reqKeys : List String) : Option Nat :=
  match ruleQP with
  | Option.none => some 5
  | some allowed =>
    if allowed = [] then
      if reqKeys = [] then some 10 else Option.none
    else
      if reqKeys.all (fun k => allowed.contains k) then some 10 else Option.none

/-- Per-rule body of the scoring loop (database.js lines 197-256): the
three checks run in order, any failed check is a `continue`, and the
contributions are summed. -/
def scoreRule (r : Rule) (reqSub reqPath : Option String) (reqKeys : List String) : Option Nat :=
  match subScore r.subdomain reqSub with
  | Option.none => Option.none
  | some a =>
    match pathScore r.path reqPath with
    | Option.none => Option.none
    | some b =>
      match queryScore r.query_params reqKeys with
      | Option.none => Option.none
      | some c => some (a + b + c)

/-- Scored surviving candidates in table order: the SQL filter
`expires_at > ? AND domain = ?` of database.js line 193 followed by the
scoring loop (the `matches` array). -/
def matchList (store : List Rule) (now : Int) (domain : String)
    (reqSub reqPath : Option String) (reqKeys : List String) : List (Rule × Nat) :=
  (store.filter (fun r => decide (now < r.expires_at) && decide (r.domain = domain))).filterMap
    (fun r => (scoreRule r reqSub reqPath reqKeys).map (fun sc => (r, sc)))

/-- Selection step of database.js lines 258-262: a stable sort by score
descending followed by `matches[0]` returns the first element of the
array that attains the maximal score, which is what this recursion
computes (keep the current head unless a later element is strictly
better). -/
def selectBest : List (Rule × Nat) → Option (Rule × Nat)
  | [] => Option.none
  | x :: xs =>
    match selectBest xs with
    | Option.none => some x
    | some y => if x.2 < y.2 then some y else some x

/-- Embeds `findMatchingRule` (database.js lines 191-265). -/
def findMatchingRule (store : List Rule) (now : Int) (domain : String)
    (reqSub reqPath : Option String) (reqKeys : List String) : Option Rule :=
  (selectBest (matchList store now domain reqSub reqPath reqKeys)).map (fun m => m.1)

/-!
Spec-side model.  The specification describes rules through tagged
selector variants; the stored nullable strings realise them with `'*'`
for `Any` and `'!'` (or NULL / empty) for `None`.
-/

/-- Selector of the spec data model: `Any`, `None` or `Exact v`. -/
inductive Selector where
  | any
  | none
  | exact (v : String)
deriving Repr, DecidableEq

/-- QueryPolicy of the spec data model. -/
inductive QueryPolicy where
  | allowAll
  | allowNone
  | allowList (keys : List String)
deriving Repr, DecidableEq

/-- Concrete argument that realises a selector at the `generateRuleId` /
`createRule` interface (spec section 6: `*` encodes Any, `!`-or-null
encodes None, a literal encodes Exact). -/
def Selector.toArg : Selector → Option String
  | Selector.any => some "*"
  | Selector.none => Option.none
  | Selector.exact v => some v

/-- Concrete argument that realises a query policy (spec section 6:
null maps to AllowAll, `[]` to AllowNone, a non-empty array to
AllowList). -/
def QueryPolicy.toArg : QueryPolicy → Option (List String)
  | QueryPolicy.allowAll => Option.none
  | QueryPolicy.allowNone => some []
  | QueryPolicy.allowList ks => some ks

/-- RuleCodec `encode` of spec section 4.1, realised by the source's
`generateRuleId` through the selector-to-argument mapping. -/
def encode (domain : String) (s p : Selector) (q : QueryPolicy) : String :=
  generateRuleId domain s.toArg p.toArg q.toArg

/-- Selector denoted by a stored subdomain column, per the matcher's
branches (database.js lines 200-212). -/
def specSubSelector (rs : Option String) : Selector :=
  if rs = some "*" then Selector.any
  else if rs = some "!" ∨ strFalsy rs then Selector.none
  else Selector.exact (rs.getD "")

/-- Selector denoted by a stored path column, per the matcher's branches
(database.js lines 214-226). -/
def specPathSelector (rp : Option String) : Selector :=
  if rp = some "*" then Selector.any
  else if rp = some "!" ∨ strFalsy rp then Selector.none
  else Selector.exact (rp.getD "")

/-- QueryPolicy denoted by a stored `query_params` column. -/
def specQueryPolicy : Option (List String) → QueryPolicy
  | Option.none => QueryPolicy.allowAll
  | some [] => QueryPolicy.allowNone
  | some ks => QueryPolicy.allowList ks

/-- Subdomain sub-score in the words of claim C1: Exact match 10, None
with no request subdomain 10, Any 1, otherwise excluded.  A request
subdomain that is absent or empty is "no subdomain" (the JavaScript
interface cannot distinguish the two). -/
def claimSubScore : Selector → Option String → Option Nat
  | Selector.any, _ => some 1
  | Selector.none, req => if strFalsy req then some 10 else Option.none
  | Selector.exact v, req => if req = some v then some 10 else Option.none

/-- Path sub-score in the words of claim C1 as stated: Exact match 10,
None with absent/empty/root request path 10, Any 1, otherwise
excluded. -/
def claimPathScoreOrig : Selector → Option String → Option Nat
  | Selector.any, _ => some 1
  | Selector.none, req =>
    if req = Option.none ∨ req = some "" ∨ req = some "/" then some 10 else Option.none
  | Selector.exact v, req => if req = some v then some 10 else Option.none

/-- Path sub-score amended: the None selector also accepts the literal
request path `"!"` (the no-path marker itself), which the code admits at
database.js line 220. -/
def claimPathScore : Selector → Option String → Option Nat
  | Selector.any, _ => some 1
  | Selector.none, req =>
    if req = Option.none ∨ req = some "" ∨ req = some "/" ∨ req = some "!" then some 10
    else Option.none
  | Selector.exact v, req => if req = some v then some 10 else Option.none

/-- Query-policy sub-score in the words of claim C1: AllowAll 5 always,
AllowNone 10 iff no request keys, AllowList 10 iff every request key is
allowed, otherwise excluded. -/
def claimQueryScore : QueryPolicy → List String → Option Nat
  | QueryPolicy.allowAll, _ => some 5
  | QueryPolicy.allowNone, keys => if keys = [] then some 10 else Option.none
  | QueryPolicy.allowList ks, keys =>
    if keys.all (fun k => ks.contains k) then some 10 else Option.none

/-- Sum of three optional sub-scores; any failed dimension excludes. -/
def combineScores : Option Nat → Option Nat → Option Nat → Option Nat
  | some a, some b, some c => some (a + b + c)
  | _, _, _ => Option.none

/-- Total score of a candidate in the words of claim C1 as stated. -/
def claimScoreOrig (r : Rule) (reqSub reqPath : Option String) (reqKeys : List String) : Option Nat :=
  combineScores (claimSubScore (specSubSelector r.subdomain) reqSub)
    (claimPathScoreOrig (specPathSelector r.path) reqPath)
    (claimQueryScore (specQueryPolicy r.query_params) reqKeys)

/-- Total score of a candidate in the words of the amended claim C1. -/
def claimScore (r : Rule) (reqSub reqPath : Option String) (reqKeys : List String) : Option Nat :=
  combineScores (claimSubScore (specSubSelector r.subdomain) reqSub)
    (claimPathScore (specPathSelector r.path) reqPath)
    (claimQueryScore (specQueryPolicy r.query_params) reqKeys)

/-!
Well-formedness of selector tuples for the injectivity of the encoding.
The id grammar reserves `*`, `!`, the separators `.` and `/`, and the
bracketed comma-joined key list, so exact values that collide with those
meta-strings, paths without a leading slash, and keys containing commas
fall outside the injective fragment.
-/

/-- Domain usable in an id: contains no slash (the path separator). -/
def goodDomain (d : String) : Bool :=
  decide (('/' : Char) ∉ d.data)

/-- Subdomain selector inside the injective fragment: an exact value is
not empty, not a meta-string and contains no slash. -/
def goodSub : Selector → Bool
  | Selector.any => true
  | Selector.none => true
  | Selector.exact v =>
    decide (v ≠ "") && decide (v ≠ "*") && decide (v ≠ "!") && decide (('/' : Char) ∉ v.data)

/-- Path selector inside the injective fragment: an exact value starts
with a slash, is not a meta-string and contains no opening bracket. -/
def goodPath : Selector → Bool
  | Selector.any => true
  | Selector.none => true
  | Selector.exact v =>
    startsWithSlash v && decide (v ≠ "/*") && decide (v ≠ "/!") &&
      decide (('[' : Char) ∉ v.data)

/-- Query policy inside the injective fragment: an allow-list is
non-empty and its keys are non-empty and comma-free. -/
def goodQuery : QueryPolicy → Bool
  | QueryPolicy.allowAll => true
  | QueryPolicy.allowNone => true
  | QueryPolicy.allowList ks =>
    decide (ks ≠ []) && ks.all (fun k => decide (k ≠ "") && decide ((',' : Char) ∉ k.data))

/-- Subdomain string a selector contributes to the id (the part before
the dot). -/
def selSub : Selector → String
  | Selector.any => "*"
  | Selector.none => "!"
  | Selector.exact v => v

/-- Path segment a selector contributes to the id (leading slash
included). -/
def selPath : Selector → String
  | Selector.any => "/*"
  | Selector.none => "/!"
  | Selector.exact v => v

/-- Text between the brackets of the query segment of an id (meaningful
for AllowNone and AllowList; AllowAll has no query segment at all). -/
def queryInner : QueryPolicy → String
  | QueryPolicy.allowAll => ""
  | QueryPolicy.allowNone => ""
  | QueryPolicy.allowList ks => joinComma ks

/-!
Concrete rules used to instantiate the theorems below.
-/

/-- Rule with an exact subdomain and a wildcard path, created at time 1
(its id is `generateRuleId "example.com" (some "api") (some "*") none`). -/
def cRuleA : Rule :=
  { rule_id := "api.example.com/*", domain := "example.com",
    subdomain := some "api", path := some "*", query_params := Option.none,
    downstream_url := "http://a:3000", expires_at := 100,
    created_at := 1, updated_at := 1 }

/-- Rule with a wildcard subdomain and an exact path, created at time 2. -/
def cRuleB : Rule :=
  { rule_id := "*.example.com/x", domain := "example.com",
    subdomain := some "*", path := some "/x", query_params := Option.none,
    downstream_url := "http://b:3000", expires_at := 100,
    created_at := 2, updated_at := 2 }

/-- Rule with NULL subdomain and NULL path (id `!.example.com/!`). -/
def cRuleBang : Rule :=
  { rule_id := "!.example.com/!", domain := "example.com",
    subdomain := Option.none, path := Option.none, query_params := Option.none,
    downstream_url := "http://c:3000", expires_at := 100,
    created_at := 1, updated_at := 1 }

/-- Rule whose query policy is the allow-list `["id"]`. -/
def cRuleList : Rule :=
  { rule_id := "api.example.com/u/[id]", domain := "example.com",
    subdomain := some "api", path := some "/u", query_params := some ["id"],
    downstream_url := "http://d:3000", expires_at := 100,
    created_at := 1, updated_at := 1 }

/-- Rule that expired at time 5. -/
def cRuleExpired : Rule :=
  { rule_id := "old.example.com/!", domain := "example.com",
    subdomain := some "old", path := Option.none, query_params := Option.none,
    downstream_url := "http://e:3000", expires_at := 5,
    created_at := 1, updated_at := 1 }

/-!
Helper lemmas about the embedding.
-/

theorem string_eq_of_data {s t : String} (h : s.data = t.data) : s = t := by
  cases s; cases t; exact congrArg String.mk h

theorem mem_insertDesc {x r : Rule} : ∀ {l : List Rule}, x ∈ insertDesc r l ↔ x = r ∨ x ∈ l := by
  intro l
  induction l with
  | nil => simp [insertDesc]
  | cons y ys ih =>
    by_cases h : r.created_at ≤ y.created_at
    · simp only [insertDesc, if_pos h, List.mem_cons, ih]
      tauto
    · simp only [insertDesc, if_neg h, List.mem_cons]

theorem mem_sortByCreatedDesc {x : Rule} : ∀ {l : List Rule}, x ∈ sortByCreatedDesc l ↔ x ∈ l := by
  intro l
  induction l with
  | nil => simp [sortByCreatedDesc]
  | cons y ys ih => simp [sortByCreatedDesc, mem_insertDesc, ih]

theorem selectBest_eq_none {l : List (Rule × Nat)} : selectBest l = Option.none ↔ l = [] := by
  cases l with
  | nil => simp [selectBest]
  | cons x xs =>
    simp only [selectBest]
    cases selectBest xs with
    | none => simp
    | some y =>
      by_cases h : x.2 < y.2 <;> simp [h]

theorem selectBest_mem : ∀ {l : List (Rule × Nat)} {m : Rule × Nat},
    selectBest l = some m → m ∈ l := by
  intro l
  induction l with
  | nil => intro m h; simp [selectBest] at h
  | cons x xs ih =>
    intro m h
    cases hx : selectBest xs with
    | none =>
      simp only [selectBest, hx] at h
      exact List.mem_cons.mpr (Or.inl (Option.some.inj h).symm)
    | some y =>
      simp only [selectBest, hx] at h
      by_cases hc : x.2 < y.2
      · rw [if_pos hc] at h
        exact List.mem_cons.mpr (Or.inr (ih (hx.trans (congrArg some (Option.some.inj h)))))
      · rw [if_neg hc] at h
        exact List.mem_cons.mpr (Or.inl (Option.some.inj h).symm)

theorem selectBest_le : ∀ {l : List (Rule × Nat)} {m : Rule × Nat},
    selectBest l = some m → ∀ x ∈ l, x.2 ≤ m.2 := by
  intro l
  induction l with
  | nil => intro m h; simp [selectBest] at h
  | cons x xs ih =>
    intro m h z hz
    cases hx : selectBest xs with
    | none =>
      have hxs : xs = [] := selectBest_eq_none.mp hx
      subst hxs
      simp only [selectBest] at h
      rcases List.mem_singleton.mp hz with rfl
      rw [Option.some.inj h]
    | some y =>
      simp only [selectBest, hx] at h
      by_cases hc : x.2 < y.2
      · rw [if_pos hc] at h
        rcases Option.some.inj h with rfl
        rcases List.mem_cons.mp hz with rfl | hz2
        · exact le_of_lt hc
        · exact ih hx z hz2
      · rw [if_neg hc] at h
        rcases Option.some.inj h with rfl
        rcases List.mem_cons.mp hz with rfl | hz2
        · exact le_refl _
        · exact le_trans (ih hx z hz2) (not_lt.mp hc)

theorem mem_matchList {store : List Rule} {now : Int} {domain : String}
    {reqSub reqPath : Option String} {reqKeys : List String} {r : Rule} {sc : Nat} :
    (r, sc) ∈ matchList store now domain reqSub reqPath reqKeys ↔
      (r ∈ store ∧ now < r.expires_at ∧ r.domain = domain ∧
        scoreRule r reqSub reqPath reqKeys = some sc) := by
  simp only [matchList, List.mem_filterMap, List.mem_filter, Option.map_eq_some',
    Prod.mk.injEq, Bool.and_eq_true, decide_eq_true_eq]
  constructor
  · rintro ⟨a, ⟨ha, hexp, hdom⟩, b, hsc, rfl, rfl⟩
    exact ⟨ha, hexp, hdom, hsc⟩
  · rintro ⟨ha, hexp, hdom, hsc⟩
    exact ⟨r, ⟨ha, hexp, hdom⟩, sc, hsc, rfl, rfl⟩

theorem findMatchingRule_some {store : List Rule} {now : Int} {domain : String}
    {reqSub reqPath : Option String} {reqKeys : List String} {r : Rule}
    (h : findMatchingRule store now domain reqSub reqPath reqKeys = some r) :
    ∃ sc, (r, sc) ∈ matchList store now domain reqSub reqPath reqKeys ∧
      ∀ x ∈ matchList store now domain reqSub reqPath reqKeys, x.2 ≤ sc := by
  unfold findMatchingRule at h
  cases hm : selectBest (matchList store now domain reqSub reqPath reqKeys) with
  | none => rw [hm] at h; simp at h
  | some m =>
    rw [hm] at h
    simp only [Option.map_some'] at h
    rcases Option.some.inj h with rfl
    refine ⟨m.2, ?_, selectBest_le hm⟩
    have := selectBest_mem hm
    simpa using this

theorem findMatchingRule_none {store : List Rule} {now : Int} {domain : String}
    {reqSub reqPath : Option String} {reqKeys : List String}
    (h : findMatchingRule store now domain reqSub reqPath reqKeys = Option.none) :
    matchList store now domain reqSub reqPath reqKeys = [] := by
  unfold findMatchingRule at h
  cases hm : selectBest (matchList store now domain reqSub reqPath reqKeys) with
  | none => exact selectBest_eq_none.mp hm
  | some m => rw [hm] at h; simp at h

theorem pathBlocks_eq_false_iff (req : Option String) :
    pathBlocks req = false ↔
      (req = Option.none ∨ req = some "" ∨ req = some "/" ∨ req = some "!") := by
  rcases req with _ | p
  · simp [pathBlocks]
  · by_cases h1 : p = "" <;> by_cases h2 : p = "/" <;> by_cases h3 : p = "!" <;>
      simp [pathBlocks, h1, h2, h3]

theorem subScore_eq_claim (rs req : Option String) :
    subScore rs req = claimSubScore (specSubSelector rs) req := by
  rcases rs with _ | s
  · simp [subScore, specSubSelector, claimSubScore, strFalsy]
  · by_cases h1 : s = "*"
    · subst h1; simp [subScore, specSubSelector, claimSubScore]
    · by_cases h2 : s = "!"
      · subst h2; simp [subScore, specSubSelector, claimSubScore, strFalsy]
      · by_cases h3 : s = ""
        · subst h3; simp [subScore, specSubSelector, claimSubScore, strFalsy]
        · have hc1 : ¬(some s = some "*") := by simp [h1]
          have hc2 : ¬(some s = some "!" ∨ strFalsy (some s) = true) := by
            simp [strFalsy, h2, h3]
          simp only [subScore, specSubSelector]
          rw [if_neg hc1, if_neg hc2, if_neg hc1, if_neg hc2]
          simp only [Option.getD_some, claimSubScore]
          by_cases hr : req = some s
          · simp [hr]
          · rw [if_neg (fun hh => hr hh.symm), if_neg hr]

theorem pathScore_eq_claim (rp req : Option String) :
    pathScore rp req = claimPathScore (specPathSelector rp) req := by
  have key : (if pathBlocks req = true then (Option.none : Option Nat) else some 10) =
      (if req = Option.none ∨ req = some "" ∨ req = some "/" ∨ req = some "!" then some 10
       else Option.none) := by
    by_cases hb : pathBlocks req = true
    · rw [if_pos hb, if_neg]
      intro hd
      rw [(pathBlocks_eq_false_iff req).mpr hd] at hb
      exact Bool.false_ne_true hb
    · have hb2 : pathBlocks req = false := by
        cases hx : pathBlocks req
        · rfl
        · exact absurd hx hb
      rw [if_neg hb, if_pos ((pathBlocks_eq_false_iff req).mp hb2)]
  rcases rp with _ | p
  · simpa [pathScore, specPathSelector, claimPathScore, strFalsy] using key
  · by_cases h1 : p = "*"
    · subst h1; simp [pathScore, specPathSelector, claimPathScore]
    · by_cases h2 : p = "!"
      · subst h2
        simpa [pathScore, specPathSelector, claimPathScore, strFalsy] using key
      · by_cases h3 : p = ""
        · subst h3
          simpa [pathScore, specPathSelector, claimPathScore, strFalsy] using key
        · have hc1 : ¬(some p = some "*") := by simp [h1]
          have hc2 : ¬(some p = some "!" ∨ strFalsy (some p) = true) := by
            simp [strFalsy, h2, h3]
          simp only [pathScore, specPathSelector]
          rw [if_neg hc1, if_neg hc2, if_neg hc1, if_neg hc2]
          simp only [Option.getD_some, claimPathScore]
          by_cases hr : req = some p
          · simp [hr]
          · rw [if_neg (fun hh => hr hh.symm), if_neg hr]

theorem countP_filter_not_length (l : List Rule) (p : Rule → Bool) :
    l.countP p + (l.filter (fun r => !(p r))).length = l.length := by
  induction l with
  | nil => simp
  | cons x xs ih =>
    cases h : p x with
    | true =>
      simp [List.countP_cons, List.filter_cons, h]
      omega
    | false =>
      simp [List.countP_cons, List.filter_cons, h]
      omega

theorem queryScore_eq_claim (rq : Option (List String)) (keys : List String) :
    queryScore rq keys = claimQueryScore (specQueryPolicy rq) keys := by
  rcases rq with _ | ks
  · rfl
  · rcases ks with _ | ⟨k, ks⟩
    · rfl
    · simp [queryScore, specQueryPolicy, claimQueryScore]

theorem scoreRule_eq_claim (r : Rule) (reqSub reqPath : Option String) (reqKeys : List String) :
    scoreRule r reqSub reqPath reqKeys = claimScore r reqSub reqPath reqKeys := by
  unfold scoreRule claimScore combineScores
  rw [subScore_eq_claim, pathScore_eq_claim, queryScore_eq_claim]
  cases claimSubScore (specSubSelector r.subdomain) reqSub <;>
    cases claimPathScore (specPathSelector r.path) reqPath <;>
      cases claimQueryScore (specQueryPolicy r.query_params) reqKeys <;> rfl

/-- Claim C6: for every store state and timestamp `now`, prune removes
exactly the rules with `expires_at <= now` (the kept rows are a sublist
of the store with every record, hence every field, unchanged), returns
the number of rules removed, and a second prune with no newly expired
rules removes nothing and returns 0. -/
theorem quads_c6_prune_exact (store : List Rule) (now : Int) :
    ((pruneExpiredRules store now).2.Sublist store) ∧
    (∀ r : Rule, r ∈ (pruneExpiredRules store now).2 ↔ (r ∈ store ∧ now < r.expires_at)) ∧
    ((pruneExpiredRules store now).1 + (pruneExpiredRules store now).2.length = store.length) ∧
    (pruneExpiredRules (pruneExpiredRules store now).2 now = (0, (pruneExpiredRules store now).2)) := by
  refine ⟨List.filter_sublist _, ?_, countP_filter_not_length store _, ?_⟩
  · intro r
    simp [pruneExpiredRules, List.mem_filter, Int.not_le]
  · unfold pruneExpiredRules
    simp only [Prod.mk.injEq]
    constructor
    · rw [List.countP_eq_zero]
      intro a ha
      have h2 := (List.mem_filter.mp ha).2
      simp only [Bool.not_eq_true'] at h2
      simp [h2]
    · rw [List.filter_filter]
      simp

/-- Claim C8 counterexample: `generateRuleId` itself performs no domain
validation; with an empty domain it returns the id string `"!./!"`
instead of raising an error (the `Domain is mandatory` check lives in
`createRule`, database.js lines 84-86, not in `generateRuleId`). -/
theorem quads_c8_counterexample :
    generateRuleId "" Option.none Option.none Option.none = "!./!" := rfl

/-- Claim C8 (amended): the empty-domain check is enforced by `createRule`,
not by the id encoding: `generateRuleId` with an empty domain returns a
(degenerate) id string, and `create` with an empty domain fails with the
invalid-input error and persists nothing (the error return leaves the
store unchanged). -/
theorem quads_c8_amended (subdomain path : Option String)
    (queryParams : Option (List String)) (url : String) (expiresAt now : Int)
    (store : List Rule) :
    createRule store "" subdomain path queryParams url expiresAt now =
      Except.error DbError.invalidInput := rfl

/-- Claim C10: stored subdomain values null/undefined (`Option.none`), the
empty string and the literal `"!"` are indistinguishable: they encode to
the same id (the `!.` form), and during matching they behave identically
— such a rule matches exactly the requests whose subdomain is absent (or
empty, which JavaScript cannot tell apart from absent), scoring 10 on
the subdomain dimension. -/
theorem quads_c10_subdomain_classes :
    (∀ (d : String) (p : Option String) (q : Option (List String)),
      generateRuleId d Option.none p q = generateRuleId d (some "") p q ∧
      generateRuleId d Option.none p q = generateRuleId d (some "!") p q) ∧
    (∀ req : Option String,
      subScore Option.none req = subScore (some "") req ∧
      subScore Option.none req = subScore (some "!") req ∧
      subScore (some "!") req = (if strFalsy req = true then some 10 else Option.none)) := by
  constructor
  · intro d p q
    exact ⟨rfl, rfl⟩
  · intro req
    exact ⟨rfl, rfl, rfl⟩

/-- Claim C7: when the store already contains a rule whose id equals the
encoding of the requested `(domain, subdomain, path, query_policy)`
tuple, a second create fails with the duplicate error (the model returns
only the error, so no rule is inserted and every stored record is
untouched). -/
theorem quads_c7_duplicate (store : List Rule) (domain : String)
    (subdomain path : Option String) (queryParams : Option (List String))
    (url : String) (expiresAt now : Int) (hd : domain ≠ "")
    (h : ∃ r0 ∈ store, r0.rule_id = generateRuleId domain subdomain path queryParams) :
    createRule store domain subdomain path queryParams url expiresAt now =
      Except.error DbError.duplicate := by
  unfold createRule
  rw [if_neg hd]
  have hany : (store.any
      (fun r => r.rule_id == generateRuleId domain subdomain path queryParams)) = true := by
    rcases h with ⟨r0, hr0, hid⟩
    exact List.any_eq_true.mpr ⟨r0, hr0, by simp [hid]⟩
  rw [if_pos hany]

/-- Claim C7 witness: a concrete duplicate creation against a one-rule
store fails with the duplicate error. -/
theorem quads_c7_witness :
    ("example.com" : String) ≠ "" ∧
    cRuleA.rule_id = generateRuleId "example.com" (some "api") (some "*") Option.none ∧
    createRule [cRuleA] "example.com" (some "api") (some "*") Option.none
      "http://x" 99 3 = Except.error DbError.duplicate :=
  ⟨by decide, by decide,
   quads_c7_duplicate [cRuleA] "example.com" (some "api") (some "*") Option.none
     "http://x" 99 3 (by decide) ⟨cRuleA, List.mem_singleton.mpr rfl, by decide⟩⟩

/-- Claim C5: a rule is active iff `expires_at` is strictly greater than
the evaluation time (an `expires_at` equal to `now` is inactive, covered
by the `≤` hypothesis); an expired rule is excluded from
`getActiveRules` and never returned by `findMatchingRule`, but is still
a member of `getAllRules` exactly when it is in the store. -/
theorem quads_c5_expiry (store : List Rule) (now : Int) (r : Rule) :
    (r ∈ getActiveRules store now ↔ (r ∈ store ∧ now < r.expires_at)) ∧
    (r ∈ getAllRules store ↔ r ∈ store) ∧
    (r.expires_at ≤ now → ∀ (d : String) (s p : Option String) (q : List String),
      findMatchingRule store now d s p q ≠ some r) := by
  refine ⟨?_, ?_, ?_⟩
  · simp [getActiveRules, mem_sortByCreatedDesc, List.mem_filter]
  · simp [getAllRules, mem_sortByCreatedDesc]
  · intro hexp d s p q hmatch
    rcases findMatchingRule_some hmatch with ⟨sc, hmem, _⟩
    have hact := (mem_matchList.mp hmem).2.1
    omega

/-- Claim C5 witness: a rule expired at time 5 is not matched at time 10. -/
theorem quads_c5_witness :
    cRuleExpired.expires_at ≤ 10 ∧
    findMatchingRule [cRuleExpired] 10 "example.com" (some "old") Option.none [] ≠
      some cRuleExpired :=
  ⟨by decide,
   (quads_c5_expiry [cRuleExpired] 10 cRuleExpired).2.2 (by decide)
     "example.com" (some "old") Option.none []⟩

/-- Claim C4: an allow-list query-policy mismatch is a hard rejection:
whenever a rule's `query_params` is a non-empty allow-list and the
request carries a query key outside it, `findMatchingRule` never returns
that rule, whatever else is in the store. -/
theorem quads_c4_hard_rejection (store : List Rule) (now : Int) (d : String)
    (s p : Option String) (q : List String) (r : Rule) (ks : List String) (k : String)
    (hq : r.query_params = some ks) (hks : ks ≠ []) (hk : k ∈ q) (hnot : k ∉ ks) :
    findMatchingRule store now d s p q ≠ some r := by
  intro hmatch
  rcases findMatchingRule_some hmatch with ⟨sc, hmem, _⟩
  have hscore := (mem_matchList.mp hmem).2.2.2
  unfold scoreRule at hscore
  cases hsub : subScore r.subdomain s with
  | none => rw [hsub] at hscore; exact Option.noConfusion hscore
  | some a =>
    rw [hsub] at hscore
    cases hpath : pathScore r.path p with
    | none => rw [hpath] at hscore; exact Option.noConfusion hscore
    | some b =>
      rw [hpath] at hscore
      cases hquery : queryScore r.query_params q with
      | none => rw [hquery] at hscore; exact Option.noConfusion hscore
      | some c =>
        rw [hq] at hquery
        simp only [queryScore] at hquery
        rw [if_neg hks] at hquery
        by_cases hall : q.all (fun k2 => ks.contains k2) = true
        · have hcont := List.all_eq_true.mp hall k hk
          have hkmem : k ∈ ks := by simpa [List.contains, List.elem_iff] using hcont
          exact hnot hkmem
        · rw [if_neg hall] at hquery
          exact Option.noConfusion hquery

/-- Claim C4 witness: the rule allowing only the query key `id` is not
matched by a request carrying the key `page`, even though it is the only
candidate and its subdomain and path match. -/
theorem quads_c4_witness :
    cRuleList.query_params = some ["id"] ∧ (["id"] : List String) ≠ [] ∧
    "page" ∈ ["page"] ∧ "page" ∉ (["id"] : List String) ∧
    findMatchingRule [cRuleList] 0 "example.com" (some "api") (some "/u") ["page"] ≠
      some cRuleList :=
  ⟨rfl, by decide, by decide, by decide,
   quads_c4_hard_rejection [cRuleList] 0 "example.com" (some "api") (some "/u")
     ["page"] cRuleList ["id"] "page" rfl (by decide) (by decide) (by decide)⟩

/-- Claim C9: a successful `updateRule` preserves the number of rows and,
rule by rule, leaves `rule_id`, `domain`, `subdomain`, `path`,
`query_params` and `created_at` unchanged; a rule whose id differs from
the target is unchanged in every field. -/
theorem quads_c9_update_frame (store : List Rule) (ruleId : String)
    (newUrl : Option String) (newExp : Option Int) (now : Int) (store2 : List Rule)
    (h : updateRule store ruleId newUrl newExp now = Except.ok store2) :
    store2.length = store.length ∧
    ∀ (i : Nat) (hi : i < store.length) (hi2 : i < store2.length),
      ((store2.get ⟨i, hi2⟩).rule_id = (store.get ⟨i, hi⟩).rule_id ∧
       (store2.get ⟨i, hi2⟩).domain = (store.get ⟨i, hi⟩).domain ∧
       (store2.get ⟨i, hi2⟩).subdomain = (store.get ⟨i, hi⟩).subdomain ∧
       (store2.get ⟨i, hi2⟩).path = (store.get ⟨i, hi⟩).path ∧
       (store2.get ⟨i, hi2⟩).query_params = (store.get ⟨i, hi⟩).query_params ∧
       (store2.get ⟨i, hi2⟩).created_at = (store.get ⟨i, hi⟩).created_at) ∧
      ((store.get ⟨i, hi⟩).rule_id ≠ ruleId → store2.get ⟨i, hi2⟩ = store.get ⟨i, hi⟩) := by
  unfold updateRule at h
  by_cases h0 : newUrl = Option.none ∧ newExp = Option.none
  · rw [if_pos h0] at h
    exact Except.noConfusion h
  · rw [if_neg h0] at h
    by_cases h1 : store.any (fun r => r.rule_id == ruleId) = true
    · rw [if_pos h1] at h
      have hs : store2 = store.map (fun r =>
          if r.rule_id = ruleId then
            { r with downstream_url := newUrl.getD r.downstream_url,
                     expires_at := newExp.getD r.expires_at,
                     updated_at := now }
          else r) := (Except.ok.inj h).symm
      subst hs
      refine ⟨List.length_map _ _, ?_⟩
      intro i hi hi2
      have hget : (store.map (fun r =>
          if r.rule_id = ruleId then
            { r with downstream_url := newUrl.getD r.downstream_url,
                     expires_at := newExp.getD r.expires_at,
                     updated_at := now }
          else r)).get ⟨i, hi2⟩ =
          (fun r =>
            if r.rule_id = ruleId then
              { r with downstream_url := newUrl.getD r.downstream_url,
                       expires_at := newExp.getD r.expires_at,
                       updated_at := now }
            else r) (store.get ⟨i, hi⟩) := by
        simp [List.get_eq_getElem, List.getElem_map]
      rw [hget]
      dsimp only
      by_cases hid : (store.get ⟨i, hi⟩).rule_id = ruleId
      · rw [if_pos hid]
        exact ⟨⟨rfl, rfl, rfl, rfl, rfl, rfl⟩, fun hne => absurd hid hne⟩
      · rw [if_neg hid]
        exact ⟨⟨rfl, rfl, rfl, rfl, rfl, rfl⟩, fun _ => rfl⟩
    · rw [if_neg h1] at h
      exact Except.noConfusion h

/-- Claim C9 witness: a concrete successful update of a one-rule store
keeps the row count. -/
theorem quads_c9_witness :
    ([{ cRuleA with downstream_url := "http://new", updated_at := 7 }] : List Rule).length =
      ([cRuleA] : List Rule).length :=
  (quads_c9_update_frame [cRuleA] "api.example.com/*" (some "http://new") Option.none 7
    [{ cRuleA with downstream_url := "http://new", updated_at := 7 }] rfl).1

/-- Claim C1 counterexample: a request whose path is the literal string
`"!"` matches a stored rule with no path selector (database.js line 220
also accepts `'!'`), although the claim's scoring admits only an
absent, empty or root (`"/"`) request path for the None selector: the
rule is returned even though the claimed score is `none` (excluded). -/
theorem quads_c1_counterexample :
    findMatchingRule [cRuleBang] 0 "example.com" Option.none (some "!") [] = some cRuleBang ∧
    claimScoreOrig cRuleBang Option.none (some "!") [] = Option.none := ⟨rfl, rfl⟩

/-- Claim C1 (amended): `findMatchingRule` considers exactly the active
rules of the request domain and scores them with the claimed sub-scores,
with one amendment: the None path selector also accepts the literal
request path `"!"`.  A returned rule is an active same-domain stored
rule with a defined total score that is maximal among all surviving
candidates; when no candidate survives, every active same-domain rule is
excluded (score `none`) and nothing is returned. -/
theorem quads_c1_resolution (store : List Rule) (now : Int) (d : String)
    (s p : Option String) (q : List String) :
    (∀ r : Rule, findMatchingRule store now d s p q = some r →
      r ∈ store ∧ now < r.expires_at ∧ r.domain = d ∧
      ∃ sc, claimScore r s p q = some sc ∧
        ∀ r2 ∈ store, now < r2.expires_at → r2.domain = d →
          ∀ sc2, claimScore r2 s p q = some sc2 → sc2 ≤ sc) ∧
    (findMatchingRule store now d s p q = Option.none →
      ∀ r ∈ store, now < r.expires_at → r.domain = d →
        claimScore r s p q = Option.none) := by
  constructor
  · intro r hr
    rcases findMatchingRule_some hr with ⟨sc, hmem, hmax⟩
    rcases mem_matchList.mp hmem with ⟨hin, hact, hdom, hscore⟩
    refine ⟨hin, hact, hdom, sc, ?_, ?_⟩
    · rw [← scoreRule_eq_claim]
      exact hscore
    · intro r2 hr2 hact2 hdom2 sc2 hsc2
      have hmem2 : (r2, sc2) ∈ matchList store now d s p q :=
        mem_matchList.mpr ⟨hr2, hact2, hdom2, by rw [scoreRule_eq_claim]; exact hsc2⟩
      exact hmax (r2, sc2) hmem2
  · intro hnone r hr hact hdom
    have hlist := findMatchingRule_none hnone
    by_contra hne
    rcases Option.ne_none_iff_exists'.mp hne with ⟨sc, hsc⟩
    have hmem : (r, sc) ∈ matchList store now d s p q :=
      mem_matchList.mpr ⟨hr, hact, hdom, by rw [scoreRule_eq_claim]; exact hsc⟩
    rw [hlist] at hmem
    exact List.not_mem_nil _ hmem

/-- Claim C1 witness: a concrete resolution against a one-rule store,
discharging the hypothesis of the some-branch. -/
theorem quads_c1_witness :
    cRuleA ∈ [cRuleA] ∧ (0 : Int) < cRuleA.expires_at ∧ cRuleA.domain = "example.com" := by
  have h := (quads_c1_resolution [cRuleA] 0 "example.com" (some "api") (some "/z") []).1
    cRuleA rfl
  exact ⟨h.1, h.2.1, h.2.2.1⟩

theorem find?_congr_on {l : List (Rule × Nat)} {p q : (Rule × Nat) → Bool}
    (h : ∀ x ∈ l, p x = q x) : l.find? p = l.find? q := by
  induction l with
  | nil => rfl
  | cons x xs ih =>
    have hx := h x (List.mem_cons_self x xs)
    cases hp : p x with
    | true =>
      rw [List.find?_cons_of_pos xs hp, List.find?_cons_of_pos xs (hx ▸ hp)]
    | false =>
      rw [List.find?_cons_of_neg xs (by simp [hp]), List.find?_cons_of_neg xs (by simp [hx ▸ hp])]
      exact ih (fun z hz => h z (List.mem_cons_of_mem x hz))

theorem selectBest_first_max : ∀ {l : List (Rule × Nat)} {m : Rule × Nat},
    selectBest l = some m →
    l.find? (fun x => l.all (fun y => decide (y.2 ≤ x.2))) = some m := by
  intro l
  induction l with
  | nil => intro m h; simp [selectBest] at h
  | cons a xs ih =>
    intro m h
    cases hx : selectBest xs with
    | none =>
      have hxs : xs = [] := selectBest_eq_none.mp hx
      subst hxs
      simp only [selectBest] at h
      have hma : a = m := Option.some.inj h
      subst hma
      apply List.find?_cons_of_pos
      simp
    | some y =>
      simp only [selectBest, hx] at h
      by_cases hc : a.2 < y.2
      · rw [if_pos hc] at h
        have hym : y = m := Option.some.inj h
        subst hym
        have hymem := selectBest_mem hx
        have hPa : ((a :: xs).all (fun z => decide (z.2 ≤ a.2))) = false := by
          cases hall : (a :: xs).all (fun z => decide (z.2 ≤ a.2)) with
          | false => rfl
          | true =>
            exact absurd
              (by simpa using List.all_eq_true.mp hall y (List.mem_cons_of_mem a hymem))
              (not_le.mpr hc)
        rw [List.find?_cons_of_neg xs (by simp [hPa])]
        have hcong : ∀ z ∈ xs,
            (fun x => (a :: xs).all (fun y2 => decide (y2.2 ≤ x.2))) z =
            (fun x => xs.all (fun y2 => decide (y2.2 ≤ x.2))) z := by
          intro z hz
          simp only [List.all_cons]
          cases hxz : xs.all (fun y2 => decide (y2.2 ≤ z.2)) with
          | false => simp
          | true =>
            have hyz : y.2 ≤ z.2 := by
              simpa using List.all_eq_true.mp hxz y hymem
            have haz : a.2 ≤ z.2 := le_trans (le_of_lt hc) hyz
            simp [haz]
        rw [find?_congr_on hcong]
        exact ih hx
      · rw [if_neg hc] at h
        have ham : a = m := Option.some.inj h
        subst ham
        apply List.find?_cons_of_pos
        apply List.all_eq_true.mpr
        intro z hz
        have hyle := selectBest_le hx
        rcases List.mem_cons.mp hz with rfl | hz2
        · simp
        · have h1 := hyle z hz2
          have h2 : y.2 ≤ a.2 := not_lt.mp hc
          simp only [decide_eq_true_eq]
          omega

/-- Claim C3 counterexample: two active rules tie (both score 16 for the
request), the more recently created one is `cRuleB`, yet
`findMatchingRule` returns `cRuleA` — the claimed tie-break (most
recently created first, then lexicographic id) is not implemented; the
first candidate in table order wins. -/
theorem quads_c3_counterexample :
    findMatchingRule [cRuleA, cRuleB] 0 "example.com" (some "api") (some "/x") [] =
      some cRuleA ∧
    scoreRule cRuleA (some "api") (some "/x") [] = scoreRule cRuleB (some "api") (some "/x") [] ∧
    cRuleA.created_at < cRuleB.created_at ∧ cRuleA ≠ cRuleB :=
  ⟨rfl, rfl, by decide, by decide⟩

/-- Claim C3 (amended): `findMatchingRule` is a deterministic function of
the store contents and their order, and the effective tie-break is table
(insertion) order, not creation recency: the returned rule is the first
scored candidate, in candidate order, whose score is greater than or
equal to every candidate's score. -/
theorem quads_c3_tiebreak (store : List Rule) (now : Int) (d : String)
    (s p : Option String) (q : List String) (r : Rule)
    (h : findMatchingRule store now d s p q = some r) :
    ∃ sc, (matchList store now d s p q).find?
        (fun x => (matchList store now d s p q).all (fun y => decide (y.2 ≤ x.2))) =
      some (r, sc) := by
  unfold findMatchingRule at h
  cases hm : selectBest (matchList store now d s p q) with
  | none => rw [hm] at h; exact Option.noConfusion h
  | some m =>
    rw [hm] at h
    simp only [Option.map_some'] at h
    cases m with
    | mk r0 sc0 =>
      rcases Option.some.inj h with rfl
      exact ⟨sc0, selectBest_first_max hm⟩

/-- Claim C3 witness: in the concrete tie the first maximal candidate in
table order is `cRuleA` with score 16. -/
theorem quads_c3_witness :
    (matchList [cRuleA, cRuleB] 0 "example.com" (some "api") (some "/x") []).find?
        (fun x => (matchList [cRuleA, cRuleB] 0 "example.com" (some "api") (some "/x") []).all
          (fun y => decide (y.2 ≤ x.2))) = some (cRuleA, 16) := by
  obtain ⟨sc, hsc⟩ := quads_c3_tiebreak [cRuleA, cRuleB] 0 "example.com"
    (some "api") (some "/x") [] cRuleA rfl
  have hval : (cRuleA, sc) = ((cRuleA, 16) : Rule × Nat) := by
    apply Option.some.inj
    rw [← hsc]
    rfl
  rw [hval] at hsc
  exact hsc

theorem split_at_marker {c : Char} : ∀ {a1 a2 b1 b2 : List Char},
    a1 ++ c :: b1 = a2 ++ c :: b2 → c ∉ a1 → c ∉ a2 → a1 = a2 ∧ b1 = b2 := by
  intro a1
  induction a1 with
  | nil =>
    intro a2 b1 b2 h h1 h2
    cases a2 with
    | nil => simpa using h
    | cons x xs =>
      simp only [List.nil_append, List.cons_append, List.cons.injEq] at h
      exact absurd (List.mem_cons.mpr (Or.inl h.1)) h2
  | cons x xs ih =>
    intro a2 b1 b2 h h1 h2
    cases a2 with
    | nil =>
      simp only [List.cons_append, List.nil_append, List.cons.injEq] at h
      exact absurd (List.mem_cons.mpr (Or.inl h.1.symm)) h1
    | cons y ys =>
      simp only [List.cons_append, List.cons.injEq] at h
      have hx1 : c ∉ xs := fun hm => h1 (List.mem_cons_of_mem x hm)
      have hy2 : c ∉ ys := fun hm => h2 (List.mem_cons_of_mem y hm)
      rcases ih h.2 hx1 hy2 with ⟨hxy, hb⟩
      exact ⟨by rw [h.1, hxy], hb⟩

theorem goodSub_exact {v : String} (h : goodSub (Selector.exact v) = true) :
    v ≠ "" ∧ v ≠ "*" ∧ v ≠ "!" ∧ ('/' : Char) ∉ v.data := by
  simp only [goodSub, Bool.and_eq_true, decide_eq_true_eq] at h
  exact ⟨h.1.1.1, h.1.1.2, h.1.2, h.2⟩

theorem goodPath_exact {v : String} (h : goodPath (Selector.exact v) = true) :
    startsWithSlash v = true ∧ v ≠ "/*" ∧ v ≠ "/!" ∧ ('[' : Char) ∉ v.data := by
  simp only [goodPath, Bool.and_eq_true, decide_eq_true_eq] at h
  exact ⟨h.1.1.1, h.1.1.2, h.1.2, h.2⟩

theorem goodQuery_allowList {ks : List String} (h : goodQuery (QueryPolicy.allowList ks) = true) :
    ks ≠ [] ∧ ∀ k ∈ ks, k ≠ "" ∧ (',' : Char) ∉ k.data := by
  simp only [goodQuery, Bool.and_eq_true, decide_eq_true_eq] at h
  refine ⟨h.1, ?_⟩
  intro k hk
  have := List.all_eq_true.mp h.2 k hk
  simpa [Bool.and_eq_true, decide_eq_true_eq] using this

theorem startsWithSlash_data {v : String} (h : startsWithSlash v = true) :
    ∃ t, v.data = '/' :: t := by
  unfold startsWithSlash at h
  cases hd : v.data with
  | nil => rw [hd] at h; exact Bool.noConfusion h
  | cons c t =>
    rw [hd] at h
    simp only at h
    have hc : c = '/' := eq_of_beq h
    subst hc
    exact ⟨t, rfl⟩

theorem selSub_no_slash {s : Selector} (hs : goodSub s = true) :
    ('/' : Char) ∉ (selSub s).data := by
  cases s with
  | any => decide
  | none => decide
  | exact v => exact (goodSub_exact hs).2.2.2

theorem selPath_data_slash {p : Selector} (hp : goodPath p = true) :
    ∃ t, (selPath p).data = '/' :: t := by
  cases p with
  | any => exact ⟨['*'], rfl⟩
  | none => exact ⟨['!'], rfl⟩
  | exact v => exact startsWithSlash_data (goodPath_exact hp).1

theorem selPath_no_brack {p : Selector} (hp : goodPath p = true) :
    ('[' : Char) ∉ (selPath p).data := by
  cases p with
  | any => decide
  | none => decide
  | exact v => exact (goodPath_exact hp).2.2.2

theorem selSub_inj {s1 s2 : Selector} (h1 : goodSub s1 = true) (h2 : goodSub s2 = true)
    (h : selSub s1 = selSub s2) : s1 = s2 := by
  cases s1 with
  | any =>
    cases s2 with
    | any => rfl
    | none => exact absurd h (by decide)
    | exact v => exact absurd h.symm (goodSub_exact h2).2.1
  | none =>
    cases s2 with
    | any => exact absurd h (by decide)
    | none => rfl
    | exact v => exact absurd h.symm (goodSub_exact h2).2.2.1
  | exact v =>
    cases s2 with
    | any => exact absurd h (goodSub_exact h1).2.1
    | none => exact absurd h (goodSub_exact h1).2.2.1
    | exact v2 => rw [show v = v2 from h]

theorem selPath_inj {p1 p2 : Selector} (h1 : goodPath p1 = true) (h2 : goodPath p2 = true)
    (h : selPath p1 = selPath p2) : p1 = p2 := by
  cases p1 with
  | any =>
    cases p2 with
    | any => rfl
    | none => exact absurd h (by decide)
    | exact v => exact absurd h.symm (goodPath_exact h2).2.1
  | none =>
    cases p2 with
    | any => exact absurd h (by decide)
    | none => rfl
    | exact v => exact absurd h.symm (goodPath_exact h2).2.2.1
  | exact v =>
    cases p2 with
    | any => exact absurd h (goodPath_exact h1).2.1
    | none => exact absurd h (goodPath_exact h1).2.2.1
    | exact v2 => rw [show v = v2 from h]

theorem subPart_toArg {s : Selector} (hs : goodSub s = true) (d : String) :
    subPart s.toArg d = selSub s ++ "." ++ d := by
  cases s with
  | any => rfl
  | none => rfl
  | exact v =>
    simp only [Selector.toArg, subPart, selSub]
    rw [if_neg (goodSub_exact hs).1]

theorem pathPart_toArg {p : Selector} (hp : goodPath p = true) :
    pathPart p.toArg = selPath p := by
  cases p with
  | any => rfl
  | none => rfl
  | exact v =>
    obtain ⟨hstart, _, _, _⟩ := goodPath_exact hp
    obtain ⟨t, ht⟩ := startsWithSlash_data hstart
    have hne : v ≠ "" := by
      intro hv
      rw [hv] at ht
      exact List.noConfusion ht
    have hnstar : v ≠ "*" := by
      intro hv
      rw [hv] at ht
      simp at ht
    simp only [Selector.toArg, pathPart, selPath]
    rw [if_neg hne, if_neg hnstar, if_pos hstart]

theorem queryPart_allowAll : queryPart QueryPolicy.allowAll.toArg = "" := rfl

theorem queryPart_braced {q : QueryPolicy} (hq : goodQuery q = true)
    (hne : q ≠ QueryPolicy.allowAll) :
    queryPart q.toArg = "/[" ++ queryInner q ++ "]" := by
  cases q with
  | allowAll => exact absurd rfl hne
  | allowNone => rfl
  | allowList ks =>
    simp only [QueryPolicy.toArg, queryPart, queryInner]
    rw [if_neg (goodQuery_allowList hq).1]

theorem joinComma_cons (k : String) {ks : List String} (h : ks ≠ []) :
    joinComma (k :: ks) = k ++ "," ++ joinComma ks := by
  cases ks with
  | nil => exact absurd rfl h
  | cons k2 ks2 => rfl

theorem joinComma_data_cons (k : String) {ks : List String} (h : ks ≠ []) :
    (joinComma (k :: ks)).data = k.data ++ ',' :: (joinComma ks).data := by
  rw [joinComma_cons k h]
  have hcomma : ("," : String).data = [','] := rfl
  simp [String.data_append, hcomma]

theorem joinComma_ne_nil {ks : List String} (hne : ks ≠ [])
    (hgood : ∀ k ∈ ks, k ≠ "" ∧ (',' : Char) ∉ k.data) :
    (joinComma ks).data ≠ [] := by
  cases ks with
  | nil => exact absurd rfl hne
  | cons k ks2 =>
    cases ks2 with
    | nil =>
      intro hd
      have hk : k = "" := string_eq_of_data (by simpa using hd)
      exact (hgood k (List.mem_cons_self _ _)).1 hk
    | cons k2 ks3 =>
      rw [joinComma_data_cons k (by simp)]
      simp

theorem joinComma_inj : ∀ {ks1 ks2 : List String},
    (∀ k ∈ ks1, k ≠ "" ∧ (',' : Char) ∉ k.data) →
    (∀ k ∈ ks2, k ≠ "" ∧ (',' : Char) ∉ k.data) →
    ks1 ≠ [] → ks2 ≠ [] →
    joinComma ks1 = joinComma ks2 → ks1 = ks2 := by
  intro ks1
  induction ks1 with
  | nil => intro ks2 _ _ hne _ _; exact absurd rfl hne
  | cons k1 ks1t ih =>
    intro ks2 hg1 hg2 _ hne2 h
    cases ks2 with
    | nil => exact absurd rfl hne2
    | cons k2 ks2t =>
      by_cases ht1 : ks1t = []
      · subst ht1
        by_cases ht2 : ks2t = []
        · subst ht2
          rw [show k1 = k2 from h]
        · exfalso
          rw [joinComma_cons k2 ht2] at h
          have hdata := congrArg String.data h
          have hdata2 : k1.data = k2.data ++ ',' :: (joinComma ks2t).data := by
            have hcomma : ("," : String).data = [','] := rfl
            simpa [joinComma, String.data_append, hcomma] using hdata
          have : (',' : Char) ∈ k1.data := by
            rw [hdata2]
            exact List.mem_append_right _ (List.mem_cons_self _ _)
          exact (hg1 k1 (List.mem_cons_self _ _)).2 this
      · by_cases ht2 : ks2t = []
        · exfalso
          subst ht2
          rw [joinComma_cons k1 ht1] at h
          have hdata := congrArg String.data h
          have hdata2 : k1.data ++ ',' :: (joinComma ks1t).data = k2.data := by
            have hcomma : ("," : String).data = [','] := rfl
            simpa [String.data_append, hcomma] using hdata
          have : (',' : Char) ∈ k2.data := by
            rw [← hdata2]
            exact List.mem_append_right _ (List.mem_cons_self _ _)
          exact (hg2 k2 (List.mem_cons_self _ _)).2 this
        · have hdata := congrArg String.data h
          rw [joinComma_data_cons k1 ht1, joinComma_data_cons k2 ht2] at hdata
          rcases split_at_marker hdata (hg1 k1 (List.mem_cons_self _ _)).2
            (hg2 k2 (List.mem_cons_self _ _)).2 with ⟨hk, hrest⟩
          have hk12 : k1 = k2 := string_eq_of_data hk
          have hjoin : joinComma ks1t = joinComma ks2t := string_eq_of_data hrest
          have htail : ks1t = ks2t :=
            ih (fun k hk2 => hg1 k (List.mem_cons_of_mem _ hk2))
              (fun k hk2 => hg2 k (List.mem_cons_of_mem _ hk2)) ht1 ht2 hjoin
          rw [hk12, htail]

theorem string_append_assoc (a b c : String) : a ++ b ++ c = a ++ (b ++ c) :=
  string_eq_of_data (by simp [String.data_append])

theorem encode_eq (d : String) {s p : Selector} (q : QueryPolicy)
    (hs : goodSub s = true) (hp : goodPath p = true) :
    encode d s p q = (selSub s ++ "." ++ d) ++ (selPath p ++ queryPart q.toArg) := by
  unfold encode generateRuleId
  rw [subPart_toArg hs, pathPart_toArg hp, string_append_assoc]

theorem encode_inj_parts {d : String} (hd : goodDomain d = true)
    {s1 s2 p1 p2 : Selector} {q1 q2 : QueryPolicy}
    (hs1 : goodSub s1 = true) (hp1 : goodPath p1 = true)
    (hs2 : goodSub s2 = true) (hp2 : goodPath p2 = true)
    (h : encode d s1 p1 q1 = encode d s2 p2 q2) :
    selSub s1 = selSub s2 ∧
      selPath p1 ++ queryPart q1.toArg = selPath p2 ++ queryPart q2.toArg := by
  rw [encode_eq d q1 hs1 hp1, encode_eq d q2 hs2 hp2] at h
  have hdata := congrArg String.data h
  obtain ⟨t1, ht1⟩ := selPath_data_slash hp1
  obtain ⟨t2, ht2⟩ := selPath_data_slash hp2
  have hdot : ("." : String).data = ['.'] := rfl
  have hL : ((selSub s1 ++ "." ++ d) ++ (selPath p1 ++ queryPart q1.toArg)).data =
      ((selSub s1).data ++ '.' :: d.data) ++ '/' :: (t1 ++ (queryPart q1.toArg).data) := by
    simp [String.data_append, ht1, hdot]
  have hR : ((selSub s2 ++ "." ++ d) ++ (selPath p2 ++ queryPart q2.toArg)).data =
      ((selSub s2).data ++ '.' :: d.data) ++ '/' :: (t2 ++ (queryPart q2.toArg).data) := by
    simp [String.data_append, ht2, hdot]
  rw [hL, hR] at hdata
  have hdmem : ('/' : Char) ∉ d.data := by simpa [goodDomain] using hd
  have hnos1 : ('/' : Char) ∉ (selSub s1).data ++ '.' :: d.data := by
    intro hmem
    rcases List.mem_append.mp hmem with hm | hm
    · exact selSub_no_slash hs1 hm
    · rcases List.mem_cons.mp hm with he | hm2
      · exact absurd he (by decide)
      · exact hdmem hm2
  have hnos2 : ('/' : Char) ∉ (selSub s2).data ++ '.' :: d.data := by
    intro hmem
    rcases List.mem_append.mp hmem with hm | hm
    · exact selSub_no_slash hs2 hm
    · rcases List.mem_cons.mp hm with he | hm2
      · exact absurd he (by decide)
      · exact hdmem hm2
  rcases split_at_marker hdata hnos1 hnos2 with ⟨hA, hB⟩
  constructor
  · exact string_eq_of_data (List.append_cancel_right hA)
  · apply string_eq_of_data
    simp [String.data_append, ht1, ht2, hB]

theorem path_query_split {p1 p2 : Selector} {q1 q2 : QueryPolicy}
    (hp1 : goodPath p1 = true) (hp2 : goodPath p2 = true)
    (hq1 : goodQuery q1 = true) (hq2 : goodQuery q2 = true)
    (h : selPath p1 ++ queryPart q1.toArg = selPath p2 ++ queryPart q2.toArg) :
    p1 = p2 ∧ q1 = q2 := by
  have hlb : ("/[" : String).data = ['/', '['] := rfl
  have hrb : ("]" : String).data = [']'] := rfl
  by_cases ha1 : q1 = QueryPolicy.allowAll
  · by_cases ha2 : q2 = QueryPolicy.allowAll
    · subst ha1
      subst ha2
      rw [queryPart_allowAll] at h
      have h2 : selPath p1 = selPath p2 := by
        apply string_eq_of_data
        simpa [String.data_append] using congrArg String.data h
      exact ⟨selPath_inj hp1 hp2 h2, rfl⟩
    · exfalso
      subst ha1
      rw [queryPart_allowAll, queryPart_braced hq2 ha2] at h
      have hmem : ('[' : Char) ∈ (selPath p1 ++ "").data := by
        rw [h]
        simp [String.data_append, hlb]
      have hmem2 : ('[' : Char) ∈ (selPath p1).data := by
        simpa [String.data_append] using hmem
      exact selPath_no_brack hp1 hmem2
  · by_cases ha2 : q2 = QueryPolicy.allowAll
    · exfalso
      subst ha2
      rw [queryPart_allowAll, queryPart_braced hq1 ha1] at h
      have hmem : ('[' : Char) ∈ (selPath p2 ++ "").data := by
        rw [← h]
        simp [String.data_append, hlb]
      have hmem2 : ('[' : Char) ∈ (selPath p2).data := by
        simpa [String.data_append] using hmem
      exact selPath_no_brack hp2 hmem2
    · rw [queryPart_braced hq1 ha1, queryPart_braced hq2 ha2] at h
      have hdata := congrArg String.data h
      have hL : (selPath p1 ++ ("/[" ++ queryInner q1 ++ "]")).data =
          ((selPath p1).data ++ ['/']) ++ '[' :: ((queryInner q1).data ++ [']']) := by
        simp [String.data_append, hlb, hrb]
      have hR : (selPath p2 ++ ("/[" ++ queryInner q2 ++ "]")).data =
          ((selPath p2).data ++ ['/']) ++ '[' :: ((queryInner q2).data ++ [']']) := by
        simp [String.data_append, hlb, hrb]
      rw [hL, hR] at hdata
      have hm1 : ('[' : Char) ∉ (selPath p1).data ++ ['/'] := by
        intro hmem
        rcases List.mem_append.mp hmem with hm | hm
        · exact selPath_no_brack hp1 hm
        · rcases List.mem_cons.mp hm with he | hm2
          · exact absurd he (by decide)
          · exact List.not_mem_nil _ hm2
      have hm2 : ('[' : Char) ∉ (selPath p2).data ++ ['/'] := by
        intro hmem
        rcases List.mem_append.mp hmem with hm | hm
        · exact selPath_no_brack hp2 hm
        · rcases List.mem_cons.mp hm with he | hm2
          · exact absurd he (by decide)
          · exact List.not_mem_nil _ hm2
      rcases split_at_marker hdata hm1 hm2 with ⟨hA, hB⟩
      have hp12 : p1 = p2 := selPath_inj hp1 hp2 (string_eq_of_data (List.append_cancel_right hA))
      have hw : queryInner q1 = queryInner q2 :=
        string_eq_of_data (List.append_cancel_right hB)
      refine ⟨hp12, ?_⟩
      cases q1 with
      | allowAll => exact absurd rfl ha1
      | allowNone =>
        cases q2 with
        | allowAll => exact absurd rfl ha2
        | allowNone => rfl
        | allowList ks =>
          exfalso
          obtain ⟨hne, hkeys⟩ := goodQuery_allowList hq2
          exact joinComma_ne_nil hne hkeys
            (by simpa [queryInner] using congrArg String.data hw.symm)
      | allowList ks1 =>
        cases q2 with
        | allowAll => exact absurd rfl ha2
        | allowNone =>
          exfalso
          obtain ⟨hne, hkeys⟩ := goodQuery_allowList hq1
          exact joinComma_ne_nil hne hkeys
            (by simpa [queryInner] using congrArg String.data hw)
        | allowList ks2 =>
          obtain ⟨hne1, hkeys1⟩ := goodQuery_allowList hq1
          obtain ⟨hne2, hkeys2⟩ := goodQuery_allowList hq2
          rw [joinComma_inj hkeys1 hkeys2 hne1 hne2 (by simpa [queryInner] using hw)]

/-- Claim C2 counterexample: the encoding is not injective over the full
selector/policy space — the distinct policies `AllowNone` and
`AllowList []` encode to the identical id (`*.example.com/*/[]`), because
both reach the database as an empty array (database.js lines 70-72 emit
`/[]` for any empty array). -/
theorem quads_c2_counterexample :
    encode "example.com" Selector.any Selector.any QueryPolicy.allowNone =
      encode "example.com" Selector.any Selector.any (QueryPolicy.allowList []) ∧
    QueryPolicy.allowNone ≠ QueryPolicy.allowList [] := ⟨rfl, by decide⟩

/-- Claim C2 (amended): the encoding is deterministic (it is a pure
function) and injective for a fixed domain over the well-formed fragment
of the tuple space: domains without a slash; exact subdomains that are
non-empty, differ from the meta-strings `*` and `!`, and contain no
slash; exact paths that start with a slash, differ from `/*` and `/!`,
and contain no opening bracket; allow-lists that are non-empty with
non-empty comma-free keys (outside this fragment distinct tuples can
collide, e.g. `AllowNone` with `AllowList []`, or the paths `users` and
`/users`).  The concrete example encodings of the claim hold. -/
theorem quads_c2_injective :
    (∀ (d : String) (s1 p1 : Selector) (q1 : QueryPolicy) (s2 p2 : Selector) (q2 : QueryPolicy),
      goodDomain d = true → goodSub s1 = true → goodPath p1 = true → goodQuery q1 = true →
      goodSub s2 = true → goodPath p2 = true → goodQuery q2 = true →
      encode d s1 p1 q1 = encode d s2 p2 q2 → s1 = s2 ∧ p1 = p2 ∧ q1 = q2) ∧
    encode "example.com" (Selector.exact "api") (Selector.exact "/users")
      (QueryPolicy.allowList ["id", "page"]) = "api.example.com/users/[id,page]" ∧
    encode "example.com" Selector.any Selector.any QueryPolicy.allowAll = "*.example.com/*" ∧
    encode "example.com" Selector.none (Selector.exact "/home")
      (QueryPolicy.allowList []) = "!.example.com/home/[]" := by
  refine ⟨?_, by decide, by decide, by decide⟩
  intro d s1 p1 q1 s2 p2 q2 hd hs1 hp1 hq1 hs2 hp2 hq2 h
  rcases encode_inj_parts hd hs1 hp1 hs2 hp2 h with ⟨hsub, hrest⟩
  rcases path_query_split hp1 hp2 hq1 hq2 hrest with ⟨hp, hq⟩
  exact ⟨selSub_inj hs1 hs2 hsub, hp, hq⟩

/-- Claim C2 witness: the well-formedness hypotheses are satisfiable at
the claim's own example tuple, and the injectivity theorem applies
there. -/
theorem quads_c2_witness :
    goodDomain "example.com" = true ∧ goodSub (Selector.exact "api") = true ∧
    goodPath (Selector.exact "/users") = true ∧
    goodQuery (QueryPolicy.allowList ["id", "page"]) = true ∧
    (Selector.exact "api" = Selector.exact "api" ∧
     Selector.exact "/users" = Selector.exact "/users" ∧
     QueryPolicy.allowList ["id", "page"] = QueryPolicy.allowList ["id", "page"]) :=
  ⟨by decide, by decide, by decide, by decide,
   quads_c2_injective.1 "example.com" (Selector.exact "api") (Selector.exact "/users")
     (QueryPolicy.allowList ["id", "page"]) (Selector.exact "api") (Selector.exact "/users")
     (QueryPolicy.allowList ["id", "page"]) (by decide) (by decide) (by decide) (by decide)
     (by decide) (by decide) (by decide) rfl⟩
